import Mathlib

/-!
Verification of the directory-listing and thumbnail-cache logic of the
file-manager repository (`file_manager.py`, `files.py`, `files - Copy (2).py`).

The Python code is shallowly embedded: the directory lister
(`FileManager.refresh_file_list` / `ModernFileManager.populate_list`) becomes a
pure function from a directory snapshot to a listing, the thumbnail cache
(`ThumbnailCache`) becomes explicit state passing over an association list, and
`FileManager.go_up` becomes a function on the navigation state together with an
embedding of POSIX `os.path.dirname`.

File names are modelled as `String`s over ASCII; Python's `str.lower()` and
code-point string comparison are embedded as computable functions on the list
of character code points, which on ASCII input agree exactly with Python.
-/

namespace FileMan

/-! ## Case-insensitive name comparison (Python `x.lower()` sort key)

Python's `list.sort(key=lambda x: (not isdir(x), x.lower()))` compares the
lowered names lexicographically by code point.  `lowerCode` is the code point
of `Char.toLower`/Python `str.lower` restricted to ASCII: letters `A`–`Z`
(codes 65–90) map to codes 97–122, everything else is unchanged. -/

def lowerCode (c : Char) : Nat :=
  if 65 ≤ c.toNat ∧ c.toNat ≤ 90 then c.toNat + 32 else c.toNat

/-- The sort key Python derives from a file name: the list of code points of
the lowercased name. -/
def lowerKey (s : String) : List Nat :=
  s.data.map lowerCode

/-- Lexicographic strict comparison of code-point lists, exactly Python's
`<` on strings of the corresponding code points. -/
def codesLt : List Nat → List Nat → Bool
  | [], [] => false
  | [], _ :: _ => true
  | _ :: _, [] => false
  | a :: as, b :: bs => if a < b then true else if b < a then false else codesLt as bs

/-- Non-strict comparison: `a ≤ b` iff `¬ b < a`, as for any total order. -/
def codesLe (a b : List Nat) : Bool :=
  ! codesLt b a

theorem codesLt_irrefl (a : List Nat) : codesLt a a = false := by
  induction a with
  | nil => rfl
  | cons x xs ih => simp [codesLt, ih]

theorem codesLt_asymm {a b : List Nat} (h : codesLt a b = true) :
    codesLt b a = false := by
  induction a generalizing b with
  | nil =>
    cases b with
    | nil => simp [codesLt] at h
    | cons y ys => rfl
  | cons x xs ih =>
    cases b with
    | nil => simp [codesLt] at h
    | cons y ys =>
      by_cases hxy : x < y
      · simp [codesLt, hxy, Nat.not_lt.mpr (Nat.le_of_lt hxy), Nat.ne_of_gt hxy]
      · by_cases hyx : y < x
        · simp [codesLt, hxy, hyx] at h
        · have hexy : x = y := Nat.le_antisymm (Nat.not_lt.mp hyx) (Nat.not_lt.mp hxy)
          subst hexy
          simp only [codesLt, Nat.lt_irrefl, if_false] at h ⊢
          exact ih h

theorem codesLt_eq_of_not {a b : List Nat} (hab : codesLt a b = false)
    (hba : codesLt b a = false) : a = b := by
  induction a generalizing b with
  | nil =>
    cases b with
    | nil => rfl
    | cons y ys => simp [codesLt] at hab
  | cons x xs ih =>
    cases b with
    | nil => simp [codesLt] at hba
    | cons y ys =>
      by_cases hxy : x < y
      · simp [codesLt, hxy] at hab
      · by_cases hyx : y < x
        · simp [codesLt, hyx] at hba
        · have hexy : x = y := Nat.le_antisymm (Nat.not_lt.mp hyx) (Nat.not_lt.mp hxy)
          subst hexy
          simp only [codesLt, Nat.lt_irrefl, if_false] at hab hba
          rw [ih hab hba]

theorem codesLt_trans {a b c : List Nat} (hab : codesLt a b = true)
    (hbc : codesLt b c = true) : codesLt a c = true := by
  induction a generalizing b c with
  | nil =>
    cases c with
    | nil =>
      cases b with
      | nil => simp [codesLt] at hab
      | cons y ys => simp [codesLt] at hbc
    | cons z zs => rfl
  | cons x xs ih =>
    cases b with
    | nil => simp [codesLt] at hab
    | cons y ys =>
      cases c with
      | nil => simp [codesLt] at hbc
      | cons z zs =>
        by_cases hxy : x < y
        · by_cases hyz : y < z
          · simp [codesLt, Nat.lt_trans hxy hyz]
          · by_cases hzy : z < y
            · simp [codesLt, hyz, hzy] at hbc
            · have heyz : y = z := Nat.le_antisymm (Nat.not_lt.mp hzy) (Nat.not_lt.mp hyz)
              subst heyz
              simp [codesLt, hxy]
        · by_cases hyx : y < x
          · simp [codesLt, hxy, hyx] at hab
          · have hexy : x = y := Nat.le_antisymm (Nat.not_lt.mp hyx) (Nat.not_lt.mp hxy)
            subst hexy
            simp only [codesLt, Nat.lt_irrefl, if_false] at hab
            by_cases hyz : x < z
            · simp [codesLt, hyz]
            · by_cases hzy : z < x
              · simp [codesLt, hyz, hzy] at hbc
              · have hexz : x = z := Nat.le_antisymm (Nat.not_lt.mp hzy) (Nat.not_lt.mp hyz)
                subst hexz
                simp only [codesLt, Nat.lt_irrefl, if_false] at hbc ⊢
                exact ih hab hbc

theorem codesLe_total (a b : List Nat) : codesLe a b = true ∨ codesLe b a = true := by
  unfold codesLe
  by_cases h : codesLt b a = true
  · right
    simp [codesLt_asymm h]
  · left
    simp [Bool.not_eq_true] at h
    simp [h]

theorem codesLe_trans {a b c : List Nat} (hab : codesLe a b = true)
    (hbc : codesLe b c = true) : codesLe a c = true := by
  unfold codesLe at hab hbc ⊢
  simp only [Bool.not_eq_true'] at hab hbc ⊢
  rcases Bool.eq_false_or_eq_true (codesLt a b) with h | h
  · rcases Bool.eq_false_or_eq_true (codesLt c a) with hca | hca
    · exact absurd (codesLt_trans hca h) (by simp [hbc])
    · exact hca
  · have hba : a = b := codesLt_eq_of_not h hab
    subst hba
    exact hbc

/-! ## Directory snapshot and the lister

A directory snapshot (`DirState`) records what the operating system would
answer for one directory: the path may be absent (`os.listdir` raises
`FileNotFoundError`), present but not a directory (`NotADirectoryError`),
unreadable (`PermissionError`), or readable with a fixed list of children.
Each child (`RawEntry`) carries its name, whether `os.path.isdir` holds, and
the outcome of `os.path.getsize`: `some n` on success, `none` when the call
raises `OSError` (e.g. a broken symlink). -/

structure RawEntry where
  name : String
  isDir : Bool
  sizeResult : Option Nat
deriving DecidableEq

/-- The spec's error taxonomy for listing: `PermissionError ↦ accessError`,
`FileNotFoundError`/`NotADirectoryError ↦ notFoundError`. -/
inductive ListError where
  | accessError
  | notFoundError
deriving DecidableEq

inductive DirState where
  | absent
  | notADirectory
  | unreadable
  | readable (entries : List RawEntry)

/-- `os.listdir` on a snapshot: the whole enumeration either fails or yields
every child name (here the child records, in enumeration order). -/
def osListdir : DirState → Except ListError (List RawEntry)
  | .absent => .error .notFoundError
  | .notADirectory => .error .notFoundError
  | .unreadable => .error .accessError
  | .readable es => .ok es

/-- One row the lister produces (name, folder flag, optional byte size, and
the "Folder"/"File" label), as in `refresh_file_list`'s tree rows. -/
structure DirectoryEntry where
  name : String
  isDirectory : Bool
  sizeBytes : Option Nat
  kindLabel : String
deriving DecidableEq

/-- Row construction in the loop body of `refresh_file_list`: directories get
no size; a file's size is present exactly when `os.path.getsize` succeeded
(the `except OSError` arm displays "N/A", i.e. absent). -/
def mkEntry (e : RawEntry) : DirectoryEntry :=
  { name := e.name
    isDirectory := e.isDir
    sizeBytes := if e.isDir then none else e.sizeResult
    kindLabel := if e.isDir then "Folder" else "File" }

/-- The comparison induced by the Python sort key
`(not os.path.isdir(x), x.lower())`: directories strictly first, ties broken
by case-insensitive name comparison. -/
def entryLe (a b : RawEntry) : Prop :=
  (a.isDir = true ∧ b.isDir = false)
  ∨ (a.isDir = b.isDir ∧ codesLe (lowerKey a.name) (lowerKey b.name) = true)

instance : DecidableRel entryLe := fun a b => by
  unfold entryLe
  infer_instance

instance : IsTotal RawEntry entryLe where
  total a b := by
    cases ha : a.isDir <;> cases hb : b.isDir
    · rcases codesLe_total (lowerKey a.name) (lowerKey b.name) with h | h
      · exact Or.inl (Or.inr ⟨ha.trans hb.symm, h⟩)
      · exact Or.inr (Or.inr ⟨hb.trans ha.symm, h⟩)
    · exact Or.inr (Or.inl ⟨hb, ha⟩)
    · exact Or.inl (Or.inl ⟨ha, hb⟩)
    · rcases codesLe_total (lowerKey a.name) (lowerKey b.name) with h | h
      · exact Or.inl (Or.inr ⟨ha.trans hb.symm, h⟩)
      · exact Or.inr (Or.inr ⟨hb.trans ha.symm, h⟩)

instance : IsTrans RawEntry entryLe where
  trans a b c hab hbc := by
    rcases hab with ⟨ha, hb⟩ | ⟨hab, hle⟩
    · rcases hbc with ⟨hb', _⟩ | ⟨hbc, _⟩
      · rw [hb] at hb'
        exact absurd hb' (by simp)
      · exact Or.inl ⟨ha, hbc ▸ hb⟩
    · rcases hbc with ⟨hb', hc⟩ | ⟨hbc, hle'⟩
      · exact Or.inl ⟨hab.trans hb', hc⟩
      · exact Or.inr ⟨hab.trans hbc, codesLe_trans hle hle'⟩

/-- `refresh_file_list` / `populate_list`: enumerate the directory, stable-sort
by `(not isdir, name.lower())`, and build one row per child.  A failed
enumeration aborts the listing with the error; nothing partial is returned. -/
def listDir (d : DirState) : Except ListError (List DirectoryEntry) :=
  match osListdir d with
  | .error e => .error e
  | .ok items => .ok ((List.insertionSort entryLe items).map mkEntry)

/-- The ordering the spec states on the produced rows: every directory row
before every file row, and rows of equal kind in case-insensitive name
order. -/
def outOrder (a b : DirectoryEntry) : Prop :=
  (a.isDirectory = true ∧ b.isDirectory = false)
  ∨ (a.isDirectory = b.isDirectory ∧ codesLe (lowerKey a.name) (lowerKey b.name) = true)

/-- Strict variant of `entryLe`: one child comes strictly before another when
their sort keys differ.  Used to show the sorted output is forced whenever no
two children share a sort key. -/
def entryLt (a b : RawEntry) : Prop :=
  (a.isDir = true ∧ b.isDir = false)
  ∨ (a.isDir = b.isDir ∧ codesLt (lowerKey a.name) (lowerKey b.name) = true)

instance : IsAntisymm RawEntry entryLt where
  antisymm a b hab hba := by
    rcases hab with ⟨ha, hb⟩ | ⟨hab, hlt⟩
    · rcases hba with ⟨hb', _⟩ | ⟨hba, _⟩
      · rw [hb] at hb'
        exact absurd hb' (by simp)
      · rw [ha, hb] at hba
        exact absurd hba (by simp)
    · rcases hba with ⟨hb', ha'⟩ | ⟨_, hlt'⟩
      · rw [ha', hb'] at hab
        exact absurd hab (by simp)
      · exact absurd hlt' (by simp [codesLt_asymm hlt])

/-- The complete sort key of a child: the kind flag together with the lowered
name.  Two children tie under the Python sort exactly when their keys agree. -/
def sortKey (e : RawEntry) : Bool × List Nat :=
  (e.isDir, lowerKey e.name)

theorem sorted_entryLt_of_keys_distinct {l : List RawEntry}
    (hs : List.Sorted entryLe l)
    (hk : l.Pairwise (fun a b => sortKey a ≠ sortKey b)) :
    List.Sorted entryLt l := by
  have hand := List.Pairwise.and hs hk
  refine hand.imp ?_
  intro a b h
  rcases h with ⟨⟨ha, hb⟩ | ⟨hflag, hle⟩, hne⟩
  · exact Or.inl ⟨ha, hb⟩
  · refine Or.inr ⟨hflag, ?_⟩
    have hname : lowerKey a.name ≠ lowerKey b.name := by
      intro h'
      exact hne (by simp [sortKey, hflag, h'])
    have hba : codesLt (lowerKey b.name) (lowerKey a.name) = false := by
      unfold codesLe at hle
      simpa using hle
    rcases Bool.eq_false_or_eq_true (codesLt (lowerKey a.name) (lowerKey b.name)) with h1 | h0
    · exact h1
    · exact absurd (codesLt_eq_of_not h0 hba) hname

/-- C1: for every readable directory, `listDir` returns the children exactly
(their names are a permutation of the snapshot's names, hence equal as sets,
with no recursion into subdirectories), ordered with all directory rows before
all file rows and each partition sorted case-insensitively by name; on the
concrete snapshot {B.txt (10 bytes), a_folder/, A.txt (5 bytes)} the produced
order is [a_folder, A.txt, B.txt]. -/
theorem claim_C1_listing_order :
    (∀ es : List RawEntry,
      ∃ out, listDir (.readable es) = .ok out ∧
        (out.map DirectoryEntry.name).Perm (es.map RawEntry.name) ∧
        List.Sorted outOrder out) ∧
    listDir (.readable
        [⟨"B.txt", false, some 10⟩, ⟨"a_folder", true, none⟩, ⟨"A.txt", false, some 5⟩])
      = .ok [⟨"a_folder", true, none, "Folder"⟩, ⟨"A.txt", false, some 5, "File"⟩,
             ⟨"B.txt", false, some 10, "File"⟩] := by
  constructor
  · intro es
    refine ⟨_, rfl, ?_, ?_⟩
    · have h := (List.perm_insertionSort entryLe es).map RawEntry.name
      simpa [List.map_map, Function.comp, mkEntry] using h
    · have hs : List.Sorted entryLe (List.insertionSort entryLe es) :=
        List.sorted_insertionSort entryLe es
      show List.Pairwise outOrder ((List.insertionSort entryLe es).map mkEntry)
      rw [List.pairwise_map]
      refine hs.imp ?_
      intro a b h
      simpa [outOrder, mkEntry, entryLe] using h
  · rfl

/-- C2: listing an unreadable directory fails with `accessError`; listing a
nonexistent path or a non-directory fails with `notFoundError`; and any
enumeration error aborts the whole listing with exactly that error — no
partial sequence is ever returned. -/
theorem claim_C2_listing_failure (d : DirState) :
    (d = .unreadable → listDir d = .error .accessError) ∧
    (d = .absent ∨ d = .notADirectory → listDir d = .error .notFoundError) ∧
    (∀ e, osListdir d = .error e → listDir d = .error e) := by
  refine ⟨?_, ?_, ?_⟩
  · rintro rfl
    rfl
  · rintro (rfl | rfl) <;> rfl
  · intro e he
    cases d <;> simp_all [osListdir, listDir]

/-- Witness for C2 at the three failing snapshots. -/
theorem claim_C2_witness :
    listDir .unreadable = .error .accessError ∧
    listDir .absent = .error .notFoundError ∧
    listDir .notADirectory = .error .notFoundError :=
  ⟨(claim_C2_listing_failure .unreadable).1 rfl,
   (claim_C2_listing_failure .absent).2.1 (Or.inl rfl),
   (claim_C2_listing_failure .notADirectory).2.1 (Or.inr rfl)⟩

/-- C3: a file child whose size read fails (`os.path.getsize` raises) does not
abort the listing: the listing still succeeds, every child is still present,
and the failing child's row carries `sizeBytes = none` (absent, not zero). -/
theorem claim_C3_size_failure_absorbed (es : List RawEntry) (e : RawEntry)
    (hmem : e ∈ es) (hfile : e.isDir = false) (hsz : e.sizeResult = none) :
    ∃ out, listDir (.readable es) = .ok out ∧
      mkEntry e ∈ out ∧ (mkEntry e).sizeBytes = none ∧
      (out.map DirectoryEntry.name).Perm (es.map RawEntry.name) := by
  refine ⟨_, rfl, ?_, ?_, ?_⟩
  · exact List.mem_map_of_mem mkEntry ((List.perm_insertionSort entryLe es).mem_iff.mpr hmem)
  · simp [mkEntry, hfile, hsz]
  · have h := (List.perm_insertionSort entryLe es).map RawEntry.name
    simpa [List.map_map, Function.comp, mkEntry] using h

/-- Witness for C3: a two-child directory where one file's size is unreadable. -/
theorem claim_C3_witness :
    ∃ out, listDir (.readable [⟨"good.txt", false, some 7⟩, ⟨"broken.lnk", false, none⟩])
      = .ok out ∧
      mkEntry ⟨"broken.lnk", false, none⟩ ∈ out ∧
      (mkEntry ⟨"broken.lnk", false, none⟩).sizeBytes = none ∧
      (out.map DirectoryEntry.name).Perm
        (([⟨"good.txt", false, some 7⟩, ⟨"broken.lnk", false, none⟩] :
            List RawEntry).map RawEntry.name) :=
  claim_C3_size_failure_absorbed _ _ (by simp) rfl rfl

/-- C8 counterexample: the two enumeration orders of the same snapshot
{A.txt (file), a.txt (file)} — a legal pair of children on a case-sensitive
file system — produce different listings, because the stable sort preserves
enumeration order among children whose case-insensitive keys tie.  The
listing is therefore not fully determined by the snapshot. -/
theorem claim_C8_counterexample :
    ([⟨"A.txt", false, some 5⟩, ⟨"a.txt", false, some 3⟩] : List RawEntry).Perm
      [⟨"a.txt", false, some 3⟩, ⟨"A.txt", false, some 5⟩] ∧
    listDir (.readable [⟨"A.txt", false, some 5⟩, ⟨"a.txt", false, some 3⟩])
      = .ok [⟨"A.txt", false, some 5, "File"⟩, ⟨"a.txt", false, some 3, "File"⟩] ∧
    listDir (.readable [⟨"a.txt", false, some 3⟩, ⟨"A.txt", false, some 5⟩])
      = .ok [⟨"a.txt", false, some 3, "File"⟩, ⟨"A.txt", false, some 5, "File"⟩] ∧
    ([⟨"A.txt", false, some 5, "File"⟩, ⟨"a.txt", false, some 3, "File"⟩] :
        List DirectoryEntry)
      ≠ [⟨"a.txt", false, some 3, "File"⟩, ⟨"A.txt", false, some 5, "File"⟩] :=
  ⟨List.Perm.swap _ _ _, rfl, rfl, by decide⟩

/-- C8 amended: for a fixed snapshot the listing is deterministic across
enumeration orders provided no two children share a sort key (same kind flag
and equal lowercased names); with such a collision the stable sort lets the
enumeration order show through. -/
theorem claim_C8_determinism_distinct_keys (es₁ es₂ : List RawEntry)
    (hperm : es₁.Perm es₂) (hkeys : (es₁.map sortKey).Nodup) :
    listDir (.readable es₁) = listDir (.readable es₂) := by
  have hsortperm : (List.insertionSort entryLe es₁).Perm (List.insertionSort entryLe es₂) :=
    ((List.perm_insertionSort entryLe es₁).trans hperm).trans
      (List.perm_insertionSort entryLe es₂).symm
  have hk₁ : ((List.insertionSort entryLe es₁).map sortKey).Nodup :=
    (((List.perm_insertionSort entryLe es₁).map sortKey).symm).nodup hkeys
  have hk₂ : ((List.insertionSort entryLe es₂).map sortKey).Nodup :=
    (hsortperm.map sortKey).nodup hk₁
  have hs₁ : List.Sorted entryLt (List.insertionSort entryLe es₁) :=
    sorted_entryLt_of_keys_distinct (List.sorted_insertionSort entryLe es₁)
      (List.pairwise_map.mp hk₁)
  have hs₂ : List.Sorted entryLt (List.insertionSort entryLe es₂) :=
    sorted_entryLt_of_keys_distinct (List.sorted_insertionSort entryLe es₂)
      (List.pairwise_map.mp hk₂)
  have heq : List.insertionSort entryLe es₁ = List.insertionSort entryLe es₂ :=
    List.eq_of_perm_of_sorted hsortperm hs₁ hs₂
  simp [listDir, osListdir, heq]

/-- Witness for the amended C8 at a concrete two-child snapshot. -/
theorem claim_C8_witness :
    listDir (.readable [⟨"b.txt", false, some 1⟩, ⟨"Alpha", true, none⟩])
      = listDir (.readable [⟨"Alpha", true, none⟩, ⟨"b.txt", false, some 1⟩]) :=
  claim_C8_determinism_distinct_keys _ _ (List.Perm.swap _ _ _) (by decide)

/-! ## Thumbnail cache (`ThumbnailCache` in `files - Copy (2).py`)

The `try` body of `_make_thumbnail` runs `img = PIL.Image.open(path)` (which
raises on a non-image), `img.thumbnail(...)`, a `tobytes` conversion, and then
`qimg = QPixmap.fromImage(QPixmap.fromImage(QPixmap()).toImage())`.  That
statement passes a `QPixmap` where the binding requires a `QImage`, so it
raises `TypeError` on every execution that reaches it: the subsequent
`pix = QPixmap(path)` fallback, its `isNull` check, and the
`pix.scaled(thumb_size, KeepAspectRatio, Smooth)` return are unreachable, and
the `except Exception` arm returns the `text-x-generic` placeholder.  A
path's content is summarised by what the two decoders would observe. -/

inductive FileContent where
  /-- `PIL.Image.open` raises: corrupt data or not an image at all. -/
  | notAnImage
  /-- PIL decodes the w×h image but `QPixmap(path)` would be null
  (format unsupported by the toolkit). -/
  | pilOnly (w h : Nat)
  /-- Both decoders accept the file; the source is w×h pixels. -/
  | image (w h : Nat)
deriving DecidableEq

inductive Bitmap where
  /-- `QIcon.fromTheme('text-x-generic').pixmap(w, h)`: the generic
  placeholder for non-images and missing decoding capability. -/
  | placeholderText (w h : Nat)
  /-- `QIcon.fromTheme('image-x-generic').pixmap(w, h)`: the placeholder the
  unreachable `isNull` arm would produce. -/
  | placeholderImage (w h : Nat)
  /-- `QPixmap(path).scaled(...)`: the scaled thumbnail the unreachable
  fallback would produce, with the given pixel dimensions. -/
  | scaledImage (w h : Nat)
deriving DecidableEq

def Bitmap.isPlaceholder : Bitmap → Bool
  | .placeholderText _ _ => true
  | .placeholderImage _ _ => true
  | .scaledImage _ _ => false

def Bitmap.dims : Bitmap → Nat × Nat
  | .placeholderText w h => (w, h)
  | .placeholderImage w h => (w, h)
  | .scaledImage w h => (w, h)

/-- `QSize.scaled(target, Qt.KeepAspectRatio)`, the size computation behind
`QPixmap.scaled`: the largest size with the source's aspect ratio (in integer
arithmetic) fitting inside the target (Qt upscales a small source).  This is
what the unreachable fallback of `_make_thumbnail` would return; it is kept
to state how the program's actual output diverges from it. -/
def scaledDims (srcW srcH tgtW tgtH : Nat) : Nat × Nat :=
  if srcW = 0 ∨ srcH = 0 then (tgtW, tgtH)
  else if tgtH * srcW / srcH ≤ tgtW then (tgtH * srcW / srcH, tgtH)
  else (tgtW, tgtW * srcH / srcW)

inductive DecodeError where
  /-- `PIL.Image.open` raised: the file is not a decodable image. -/
  | cannotDecode
  /-- The `QPixmap.fromImage(QPixmap.fromImage(QPixmap()).toImage())`
  statement raised: a `QPixmap` argument where a `QImage` is required. -/
  | typeError
deriving DecidableEq

/-- The body of the `try` block of `_make_thumbnail`: it raises (is an
`.error`) on every input — `Image.open` raises on a non-image, and for every
file PIL decodes, the `QPixmap.fromImage(QPixmap.fromImage(QPixmap())...)`
statement raises `TypeError` before the `QPixmap(path)` fallback is reached.
No path through the body returns normally. -/
def tryThumbnail (c : FileContent) (_size : Nat × Nat) : Except DecodeError Bitmap :=
  match c with
  | .notAnImage => .error .cannotDecode
  | .pilOnly _ _ => .error .typeError
  | .image _ _ => .error .typeError

/-- `_make_thumbnail`: with PIL unavailable the generic placeholder is
returned at once; otherwise the `try` body runs and any error it raises is
caught and replaced by the generic placeholder. -/
def makeThumbnail (pilAvailable : Bool) (c : FileContent) (size : Nat × Nat) : Bitmap :=
  if pilAvailable = false then .placeholderText size.1 size.2
  else
    match tryThumbnail c size with
    | .ok b => b
    | .error _ => .placeholderText size.1 size.2

abbrev CacheKey := String × Nat × Nat

/-- The mutable state of a `ThumbnailCache` object: the dict `self.cache` as
an insertion-ordered association list, plus the fixed `self.thumb_size`. -/
structure CacheState where
  cache : List (CacheKey × Bitmap)
  thumbSize : Nat × Nat

/-- Dict lookup `self.cache[key]` (first matching key). -/
def lookupCache (k : CacheKey) : List (CacheKey × Bitmap) → Option Bitmap
  | [] => none
  | (k', b) :: rest => if k' = k then some b else lookupCache k rest

/-- `ThumbnailCache.get(path)`: look up `(path, thumb_size)`; on a hit return
the stored bitmap, on a miss build the thumbnail, store it, return it.  The
final component counts reads of the source file performed by the call (a miss
decodes the file once; a hit never touches it). -/
def cacheGet (pilAvailable : Bool) (fs : String → FileContent) (st : CacheState)
    (path : String) : Bitmap × CacheState × Nat :=
  match lookupCache (path, st.thumbSize) st.cache with
  | some pix => (pix, st, 0)
  | none =>
      let pix := makeThumbnail pilAvailable (fs path) st.thumbSize
      (pix, { st with
                cache := st.cache ++ [((path, st.thumbSize), pix)] }, 1)

theorem lookupCache_append_self {k : CacheKey} {c : List (CacheKey × Bitmap)}
    (h : lookupCache k c = none) (b : Bitmap) :
    lookupCache k (c ++ [(k, b)]) = some b := by
  induction c with
  | nil => simp [lookupCache]
  | cons x rest ih =>
    obtain ⟨k', b'⟩ := x
    by_cases hk : k' = k
    · simp [lookupCache, hk] at h
    · simp only [lookupCache, if_neg hk] at h
      simpa [lookupCache, hk] using ih h

theorem lookupCache_append_left {k : CacheKey} {b : Bitmap}
    {c₁ c₂ : List (CacheKey × Bitmap)} (h : lookupCache k c₁ = some b) :
    lookupCache k (c₁ ++ c₂) = some b := by
  induction c₁ with
  | nil => simp [lookupCache] at h
  | cons x rest ih =>
    obtain ⟨k', b'⟩ := x
    by_cases hk : k' = k
    · simp only [lookupCache, if_pos hk] at h
      simpa [lookupCache, hk] using h
    · simp only [lookupCache, if_neg hk] at h
      simpa [lookupCache, hk] using ih h

theorem lookupCache_none_not_mem {k : CacheKey} {c : List (CacheKey × Bitmap)}
    (h : lookupCache k c = none) : k ∉ c.map Prod.fst := by
  induction c with
  | nil => simp
  | cons x rest ih =>
    obtain ⟨k', b'⟩ := x
    by_cases hk : k' = k
    · simp [lookupCache, hk] at h
    · simp only [lookupCache, if_neg hk] at h
      simpa [hk, Ne.symm hk] using ih h

/-- C5: calling `get` twice with identical arguments returns the same bitmap
(hence identical pixel dimensions) and the second call is a cache hit that
performs zero source-file reads. -/
theorem claim_C5_second_call_hit (pil : Bool) (fs : String → FileContent)
    (st : CacheState) (path : String) :
    (cacheGet pil fs (cacheGet pil fs st path).2.1 path).1
        = (cacheGet pil fs st path).1 ∧
    Bitmap.dims (cacheGet pil fs (cacheGet pil fs st path).2.1 path).1
        = Bitmap.dims (cacheGet pil fs st path).1 ∧
    (cacheGet pil fs (cacheGet pil fs st path).2.1 path).2.2 = 0 := by
  cases hx : lookupCache (path, st.thumbSize) st.cache with
  | some pix =>
    have h1 : cacheGet pil fs st path = (pix, st, 0) := by
      simp [cacheGet, hx]
    simp [h1, cacheGet, hx]
  | none =>
    have h2 := lookupCache_append_self hx (makeThumbnail pil (fs path) st.thumbSize)
    simp [cacheGet, hx, h2]

/-- The C7 invariant: the cache maps each (path, size) key to at most one
stored bitmap. -/
def KeysNodup (st : CacheState) : Prop :=
  (st.cache.map Prod.fst).Nodup

/-- C7: every call to `get` preserves the one-bitmap-per-key invariant, and
never removes, replaces, or invalidates a stored entry — in particular the
current file contents `fs` (which may reflect any modification of the source
files) have no effect on entries already stored. -/
theorem claim_C7_cache_invariant (pil : Bool) (fs : String → FileContent)
    (st : CacheState) (path : String) (hwf : KeysNodup st) :
    KeysNodup (cacheGet pil fs st path).2.1 ∧
    (∀ k b, lookupCache k st.cache = some b →
      lookupCache k (cacheGet pil fs st path).2.1.cache = some b) := by
  cases hx : lookupCache (path, st.thumbSize) st.cache with
  | some pix =>
    constructor
    · simpa [cacheGet, hx] using hwf
    · intro k b hb
      simpa [cacheGet, hx] using hb
  | none =>
    constructor
    · have hnot := lookupCache_none_not_mem hx
      simp only [cacheGet, hx, KeysNodup, List.map_append, List.map_cons, List.map_nil]
      rw [List.nodup_append]
      refine ⟨hwf, List.nodup_singleton _, ?_⟩
      intro a ha hb
      rw [List.mem_singleton] at hb
      subst hb
      exact hnot ha
    · intro k b hb
      simpa [cacheGet, hx] using lookupCache_append_left hb

/-- Witness for C7 at the empty cache of a fresh `ThumbnailCache`. -/
theorem claim_C7_witness :
    KeysNodup (cacheGet true (fun _ => .notAnImage) ⟨[], (128, 128)⟩ "p").2.1 :=
  (claim_C7_cache_invariant true (fun _ => .notAnImage) ⟨[], (128, 128)⟩ "p"
    (by simp [KeysNodup])).1

/-- Every execution of `_make_thumbnail` returns the `text-x-generic`
placeholder: directly when PIL is unavailable, and otherwise because the
`try` body always raises (PIL decode failure, or the line-83 `TypeError` for
any decodable file) and the catch-all arm returns the placeholder. -/
theorem makeThumbnail_placeholder (pil : Bool) (c : FileContent) (size : Nat × Nat) :
    makeThumbnail pil c size = .placeholderText size.1 size.2 := by
  cases pil <;> cases c <;> simp [makeThumbnail, tryThumbnail]

/-- C4: the thumbnail operation never lets an error escape: the only fallible
step is the `try` body, whose raised errors are all caught and replaced by
the generic placeholder; a missing decoding library, a non-image or corrupt
file, and a toolkit-unsupported format all produce the fixed placeholder
bitmap, never an exception (`cacheGet` is total by construction). -/
theorem claim_C4_never_raises (fs : String → FileContent) (st : CacheState)
    (path : String)
    (hmiss : lookupCache (path, st.thumbSize) st.cache = none) :
    (∀ e, tryThumbnail (fs path) st.thumbSize = .error e →
      (cacheGet true fs st path).1
        = .placeholderText st.thumbSize.1 st.thumbSize.2) ∧
    ((cacheGet false fs st path).1
        = .placeholderText st.thumbSize.1 st.thumbSize.2) ∧
    (fs path = .notAnImage →
      (cacheGet true fs st path).1
        = .placeholderText st.thumbSize.1 st.thumbSize.2) ∧
    (∀ w h, fs path = .pilOnly w h →
      (cacheGet true fs st path).1
        = .placeholderText st.thumbSize.1 st.thumbSize.2) := by
  refine ⟨?_, ?_, ?_, ?_⟩
  · intro e he
    simp [cacheGet, hmiss, makeThumbnail_placeholder]
  · simp [cacheGet, hmiss, makeThumbnail_placeholder]
  · intro hbad
    simp [cacheGet, hmiss, makeThumbnail_placeholder]
  · intro w h hpil
    simp [cacheGet, hmiss, makeThumbnail_placeholder]

/-- Witness for C4: a corrupt file on a fresh cache yields the placeholder. -/
theorem claim_C4_witness :
    (cacheGet true (fun _ => .notAnImage) ⟨[], (128, 128)⟩ "corrupt.png").1
      = .placeholderText 128 128 :=
  (claim_C4_never_raises (fun _ => .notAnImage) ⟨[], (128, 128)⟩
    "corrupt.png" rfl).2.2.1 rfl

/-- C9: a placeholder produced by a failed decode is stored under the
(path, size) key exactly like a successful thumbnail, and every later call
with the same arguments returns that cached placeholder with zero source
reads — even when the file has meanwhile become a valid image (`fs₂` is
unconstrained). -/
theorem claim_C9_placeholder_cached (fs₁ fs₂ : String → FileContent) (pil₂ : Bool)
    (st : CacheState) (path : String)
    (hmiss : lookupCache (path, st.thumbSize) st.cache = none)
    (hbad : fs₁ path = .notAnImage) :
    (cacheGet true fs₁ st path).1
      = .placeholderText st.thumbSize.1 st.thumbSize.2 ∧
    (cacheGet pil₂ fs₂ (cacheGet true fs₁ st path).2.1 path).1
      = .placeholderText st.thumbSize.1 st.thumbSize.2 ∧
    (cacheGet pil₂ fs₂ (cacheGet true fs₁ st path).2.1 path).2.2 = 0 := by
  have hmk : makeThumbnail true (fs₁ path) st.thumbSize
      = .placeholderText st.thumbSize.1 st.thumbSize.2 := by
    simp [makeThumbnail, tryThumbnail, hbad]
  have h2 := lookupCache_append_self hmiss (makeThumbnail true (fs₁ path) st.thumbSize)
  rw [hmk] at h2
  refine ⟨?_, ?_, ?_⟩ <;> simp [cacheGet, hmiss, h2, hmk]

/-- Witness for C9: the file decodes to nothing on the first call and is a
valid 64×64 image on the second; the cached placeholder is still returned. -/
theorem claim_C9_witness :
    (cacheGet true (fun _ => .notAnImage) ⟨[], (128, 128)⟩ "f.png").1
      = .placeholderText 128 128 ∧
    (cacheGet true (fun _ => .image 64 64)
        (cacheGet true (fun _ => .notAnImage) ⟨[], (128, 128)⟩ "f.png").2.1 "f.png").1
      = .placeholderText 128 128 ∧
    (cacheGet true (fun _ => .image 64 64)
        (cacheGet true (fun _ => .notAnImage) ⟨[], (128, 128)⟩ "f.png").2.1 "f.png").2.2
      = 0 :=
  claim_C9_placeholder_cached (fun _ => .notAnImage) (fun _ => .image 64 64) true
    ⟨[], (128, 128)⟩ "f.png" rfl rfl

/-- C6, evaluated at the failing input: for a valid 10×10 image requested at
the 128×128 thumbnail size on a fresh cache, the program returns the
`text-x-generic` placeholder — not any scaled bitmap, and in particular not
the 128×128 `KeepAspectRatio` result the unreachable
`QPixmap(path).scaled(...)` fallback (embedded as `scaledDims`) would give:
`Image.open` succeeds and the subsequent
`QPixmap.fromImage(QPixmap.fromImage(QPixmap()).toImage())` raises
`TypeError`, which the catch-all converts into the placeholder.  The claim's
scaled, aspect-preserving thumbnail is the evident intent (the fallback code
at lines 84-88 implements it) and the line-83 statement a slip. -/
theorem claim_C6_scaling_code_bug :
    (cacheGet true (fun _ => .image 10 10) ⟨[], (128, 128)⟩ "small.png").1
      = .placeholderText 128 128 ∧
    Bitmap.placeholderText 128 128
      ≠ .scaledImage (scaledDims 10 10 128 128).1 (scaledDims 10 10 128 128).2 :=
  ⟨rfl, by decide⟩

/-! ## Navigation: `FileManager.go_up` via `os.path.dirname`

`go_up` computes `os.path.dirname(self.current_path)` and, only when that
parent differs from the current path, moves there and refreshes the file
list; `ModernFileExplorer.go_up` in `files.py` has the same guard using
`Path(...).parent`. -/

/-- The prefix of a character list up to and including its last '/', or `[]`
when no '/' occurs: Python's `p[:p.rfind('/') + 1]`. -/
def takeThroughLastSlash : List Char → List Char
  | [] => []
  | c :: rest =>
      if '/' ∈ rest then c :: takeThroughLastSlash rest
      else if c = '/' then [c] else []

/-- `head.rstrip('/')`. -/
def rstripSlashes (cs : List Char) : List Char :=
  (cs.reverse.dropWhile (fun c => c = '/')).reverse

/-- Whether the list is (possibly empty and) made of slashes only, Python's
`head == sep * len(head)`. -/
def allSlashes (cs : List Char) : Bool :=
  cs.all (fun c => c = '/')

/-- POSIX `os.path.dirname`: everything up to the last '/', trailing slashes
stripped unless the head consists only of slashes (so `dirname "/" = "/"`,
`dirname "/home/user" = "/home"`, `dirname "name" = ""`). -/
def dirname (p : String) : String :=
  let head := takeThroughLastSlash p.data
  if head ≠ [] ∧ allSlashes head = false then ⟨rstripSlashes head⟩ else ⟨head⟩

/-- The navigation state of a `FileManager` window: the current path plus a
count of file-list refreshes, which observes whether a listing was re-run. -/
structure NavState where
  currentPath : String
  refreshCount : Nat
deriving DecidableEq

/-- `FileManager.go_up`: compute the parent; only when it differs from the
current path, navigate there and refresh the listing.  Total — no error path
exists. -/
def goUp (st : NavState) : NavState :=
  if dirname st.currentPath ≠ st.currentPath then
    { currentPath := dirname st.currentPath, refreshCount := st.refreshCount + 1 }
  else st

/-- C10: when the parent of the current path equals the path itself (as at
the file-system root "/"), `go_up` is a complete no-op — the state is
unchanged, no listing is re-run, and no error is raised (`goUp` is total);
for every other path it sets the current path to the parent directory and
refreshes once. -/
theorem claim_C10_go_up_root_noop (st : NavState) :
    (dirname st.currentPath = st.currentPath → goUp st = st) ∧
    (dirname st.currentPath ≠ st.currentPath →
      (goUp st).currentPath = dirname st.currentPath ∧
      (goUp st).refreshCount = st.refreshCount + 1) := by
  constructor
  · intro h
    simp [goUp, h]
  · intro h
    simp [goUp, h]

/-- Witness for C10: at the root "/" nothing changes; from "/home/user" the
manager moves to "/home". -/
theorem claim_C10_witness :
    goUp ⟨"/", 5⟩ = ⟨"/", 5⟩ ∧
    (goUp ⟨"/home/user", 0⟩).currentPath = "/home" :=
  ⟨(claim_C10_go_up_root_noop ⟨"/", 5⟩).1 (by decide),
   ((claim_C10_go_up_root_noop ⟨"/home/user", 0⟩).2 (by decide)).1.trans (by decide)⟩

end FileMan
